import Mathlib

/-!
Verification development for the hyperdrive-dsql-demo-worker repository.

The repository contains a Cloudflare Worker that, on a cron trigger, keeps
Hyperdrive configurations for Aurora DSQL endpoints fresh:

* `generateDbConnectAdminAuthToken` builds a URL `https://{endpoint}` with
  query parameters `Action` and `X-Amz-Expires=604800`, has the external
  `AwsV4Signer` collaborator sign it into the query string, and returns the
  signed URL minus its `https://` prefix.
* `scheduled` (variant `src/unnamed/part_000`, and `part_001` with different
  config names) lists existing Hyperdrive configs into a record keyed by
  name, generates one token per endpoint, and upserts each endpoint:
  `edit` on the found config's id, otherwise `create` with the endpoint's
  configName.
* `scheduled` (variant `src/src/index.ts`) only checks for the two fixed
  config names and creates the missing ones; it never edits.

Strings are modelled as `List Char` so that list reasoning applies directly.
The external signing collaborator (`aws4fetch`'s `AwsV4Signer`) is a
parameter of the embedding; its contract is modelled from the spec.
The remote configuration service's state transition is likewise modelled
from the spec.
-/

set_option linter.unusedVariables false


abbrev Str := List Char

/-- Error raised by the external signing collaborator. -/
abbrev SignErr := Unit

/-- Error raised while enumerating existing remote configs. -/
abbrev ListErr := Unit

/-- String literal constants used by the source. -/
def actionKey : Str := "Action".data

def expiresKey : Str := "X-Amz-Expires".data

def expiresVal : Str := "604800".data

def httpsPrefix : Str := "https://".data

def getMethod : Str := "GET".data

def dsqlService : Str := "dsql".data

def dbConnectAdminAction : Str := "DbConnectAdmin".data

def pgScheme : Str := "postgres".data

def pgDatabase : Str := "postgres".data

def adminUser : Str := "admin".data

def primaryName : Str := "dsql-demo-primary".data

def secondaryName : Str := "dsql-demo-secondary".data

def adminPrimaryName : Str := "dsql-admin-demo-primary".data

def adminSecondaryName : Str := "dsql-admin-demo-secondary".data

/-- The environment bindings consumed by the worker (interface `Env`). -/
structure EnvR where
  ENVIRONMENT : Str
  AWS_DSQL_REGION_PRIMARY : Str
  AWS_DSQL_REGION_SECONDARY : Str
  AWS_DSQL_ACCESS_KEY_ID : Str
  AWS_DSQL_SECRET_ACCESS_KEY : Str
  AWS_DSQL_ENDPOINT_PRIMARY : Str
  AWS_DSQL_ENDPOINT_SECONDARY : Str
  CLOUDFLARE_API_KEY_HYPERDRIVE : Str
  CLOUDFLARE_API_KEY : Str
  CLOUDFLARE_ACCOUNT_ID : Str
deriving DecidableEq

/-- `EndpointConfig` from the source: one logical endpoint. -/
structure EndpointConfig where
  configName : Str
  host : Str
  region : Str
deriving DecidableEq

/-- `HyperdriveOrigin` from the source. -/
structure HyperdriveOrigin where
  scheme : Str
  database : Str
  user : Str
  host : Str
  port : Nat
  password : Str
deriving DecidableEq

/-- A remote Hyperdrive config as returned by the listing: `{id, name, origin}`. -/
structure RemoteConfig where
  id : Str
  name : Str
  origin : HyperdriveOrigin
deriving DecidableEq

/-- The argument record passed to `new AwsV4Signer({...})` in the source. -/
structure SignerInput where
  url : Str
  method : Str
  service : Str
  region : Str
  accessKeyId : Str
  secretAccessKey : Str
  sessionToken : Option Str
  signQuery : Bool
deriving DecidableEq

/-! ### URL / query-string model

`new URL`, `URLSearchParams.set` and serialization are the platform pieces
the source relies on; they are embedded here concretely. -/

/-- Characters that `URLSearchParams` serializes as themselves
(application/x-www-form-urlencoded safe set). -/
def formSafe (c : Char) : Bool :=
  c.isAlphanum || c = '-' || c = '.' || c = '_' || c = '*'

/-- Characters allowed in a (lowercase) hostname, under which `new URL`
normalization is the identity on the authority. -/
def hostChar (c : Char) : Bool :=
  c.isLower || c.isDigit || c = '-' || c = '.'

/-- Uppercase hexadecimal digit for `n < 16`. -/
def hexDigitChar (n : Nat) : Char :=
  if n < 10 then Char.ofNat (48 + n) else Char.ofNat (55 + n)

/-- UTF-8 bytes of a unicode code point. -/
def utf8Bytes (n : Nat) : List Nat :=
  if n < 128 then [n]
  else if n < 2048 then [192 + n / 64, 128 + n % 64]
  else if n < 65536 then [224 + n / 4096, 128 + (n / 64) % 64, 128 + n % 64]
  else [240 + n / 262144, 128 + (n / 4096) % 64, 128 + (n / 64) % 64, 128 + n % 64]

/-- Form-encoding of one character: safe characters stand for themselves,
space becomes `+`, anything else is percent-encoded per UTF-8 byte. -/
def encodeChar (c : Char) : Str :=
  if formSafe c then [c]
  else if c = ' ' then ['+']
  else ((utf8Bytes c.toNat).map (fun b => ['%', hexDigitChar (b / 16), hexDigitChar (b % 16)])).flatten

/-- Form-encoding of a string. -/
def encode (s : Str) : Str := (s.map encodeChar).flatten

/-- Serialization of one `k=v` query pair. -/
def renderPair (p : Str × Str) : Str := encode p.1 ++ '=' :: encode p.2

/-- Serialization of a query parameter list, `&`-separated. -/
def renderQuery (ps : List (Str × Str)) : Str :=
  (List.intersperse ['&'] (ps.map renderPair)).flatten

/-- `URLSearchParams.set`: replace the first occurrence of the key in place,
delete later occurrences, or append if the key is absent. -/
def setParam : List (Str × Str) → Str → Str → List (Str × Str)
  | [], k, v => [(k, v)]
  | p :: ps, k, v =>
    if p.1 = k then (k, v) :: ps.filter (fun q => ¬ q.1 = k)
    else p :: setParam ps k v

/-- The `URL` object built by the source: `https://{host}` plus search params. -/
structure JsUrl where
  host : Str
  params : List (Str × Str)

/-- `URL.toString()`: `https://{host}/` with the serialized query appended
after `?` when search params are present. -/
def renderUrl (u : JsUrl) : Str :=
  match u.params with
  | [] => httpsPrefix ++ u.host ++ ['/']
  | _ :: _ => httpsPrefix ++ u.host ++ '/' :: '?' :: renderQuery u.params

/-- Host part of a serialized `https://...` URL string. -/
def urlHostOf (s : Str) : Str := (s.drop 8).takeWhile (fun c => ¬ c = '/')

/-- Query part (after the first `?`) of a serialized URL string. -/
def urlQueryOf (s : Str) : Str := (s.dropWhile (fun c => ¬ c = '?')).drop 1

/-- Split a string at every occurrence of the character `c`. -/
def splitOnChar (c : Char) : Str → List Str
  | [] => [[]]
  | x :: xs =>
    match splitOnChar c xs with
    | [] => if x = c then [[], []] else [[x]]
    | y :: ys => if x = c then [] :: y :: ys else (x :: y) :: ys

/-- Parse one raw `k=v` query segment at its first `=`. -/
def parsePair (kv : Str) : Str × Str :=
  (kv.takeWhile (fun c => ¬ c = '='), (kv.dropWhile (fun c => ¬ c = '=')).drop 1)

/-- Parse a raw query string into its `&`-separated key/value pairs. -/
def parseQuery (q : Str) : List (Str × Str) := (splitOnChar '&' q).map parsePair

/-! ### TokenSigner embedding (`generateDbConnectAdminAuthToken`) -/

/-- `generateDbConnectAdminAuthToken` from the source, with the external
`AwsV4Signer` collaborator passed in as `signer`: build `https://{endpoint}`,
set `Action` and `X-Amz-Expires=604800`, sign with query signing, and return
the signed URL minus the `https://` prefix. -/
def generateDbConnectAdminAuthToken (signer : SignerInput → Except SignErr Str)
    (yourClusterEndpoint region action accessKeyId secretAccessKey : Str)
    (sessionToken : Option Str) : Except SignErr Str :=
  let url0 : JsUrl := ⟨yourClusterEndpoint, []⟩
  let url1 : JsUrl := ⟨url0.host, setParam url0.params actionKey action⟩
  let url2 : JsUrl := ⟨url1.host, setParam url1.params expiresKey expiresVal⟩
  match signer ⟨renderUrl url2, getMethod, dsqlService, region,
      accessKeyId, secretAccessKey, sessionToken, true⟩ with
  | .error e => .error e
  | .ok signedUrl => .ok (signedUrl.drop httpsPrefix.length)

/-- Modelled from the spec: the contract of the external signing collaborator
(spec section 6 and section 4.1 step 4, which are not part of this repository's
source). On any input it succeeds with a URL of the form
`https://{same host}/?{query}` whose query, split into raw pairs, carries the
caller's `Action` and `X-Amz-Expires` parameters untouched (the signature is
added as further `X-Amz-*` parameters). -/
def SignerOk (signer : SignerInput → Except SignErr Str) : Prop :=
  ∀ inp : SignerInput, ∃ qs : Str,
    signer inp = .ok (httpsPrefix ++ urlHostOf inp.url ++ '/' :: '?' :: qs) ∧
    (parseQuery qs).filter (fun p => p.1 = actionKey) =
      (parseQuery (urlQueryOf inp.url)).filter (fun p => p.1 = actionKey) ∧
    (parseQuery qs).filter (fun p => p.1 = expiresKey) =
      (parseQuery (urlQueryOf inp.url)).filter (fun p => p.1 = expiresKey)

/-- A concrete signer satisfying `SignerOk`, used to instantiate theorems:
it re-emits the host and query of its input URL unchanged. -/
def plainSigner : SignerInput → Except SignErr Str :=
  fun inp => .ok (httpsPrefix ++ urlHostOf inp.url ++ '/' :: '?' :: urlQueryOf inp.url)

/-! ### ConfigReconciler embedding (`scheduled` / `upsertConfig`) -/

/-- One remote-config operation issued by a run. `sign` records a token
generation request to the signing collaborator; `list` the enumeration of
existing configs; `create`, `edit` and `delete` are the mutations the
remote configuration service supports. The worker code never issues
`delete`; it is present because the remote service supports it. -/
inductive RemoteOp where
  | sign (host region : Str)
  | list
  | create (name : Str) (origin : HyperdriveOrigin)
  | edit (id : Str) (origin : HyperdriveOrigin)
  | delete (id : Str)
deriving DecidableEq

/-- The origin literal built inside `upsertConfig` (and inside the create
branches of `src/src/index.ts`): constant scheme/database/user/port, with
the endpoint's host and the token as password. -/
def mkOrigin (host password : Str) : HyperdriveOrigin :=
  ⟨pgScheme, pgDatabase, adminUser, host, 5432, password⟩

/-- `upsertConfig` from `src/unnamed/part_000` (identical in `part_001`):
edit the existing config's id if one was found, otherwise create a config
named after the endpoint; either way the new origin is `mkOrigin`. -/
def upsertConfig (endpoint : EndpointConfig) (existingConfig : Option RemoteConfig)
    (password : Str) : RemoteOp :=
  let origin : HyperdriveOrigin := mkOrigin endpoint.host password
  match existingConfig with
  | some cfg => .edit cfg.id origin
  | none => .create endpoint.configName origin

/-- The `existingConfigs` record: a JS object keyed by config name, modelled
as its lookup function. -/
def Record := Str → Option RemoteConfig

/-- `existingConfigs[k] = v`: overwrite-by-key assignment. -/
def recordSet (m : Record) (k : Str) (v : RemoteConfig) : Record :=
  fun k' => if k' = k then some v else m k'

/-- The `for await` loop of `scheduled`: fold every listed config into the
record under its name. -/
def buildIndex (configs : List RemoteConfig) : Record :=
  configs.foldl (fun m config => recordSet m config.name config) (fun _ => none)

/-- `Promise.all` over the token promises: all results, or the first error. -/
def collectTokens : List (Except SignErr Str) → Except SignErr (List Str)
  | [] => .ok []
  | .error e :: _ => .error e
  | .ok t :: rest =>
    match collectTokens rest with
    | .error e => .error e
    | .ok ts => .ok (t :: ts)

/-- The token generation request `scheduled` makes for one endpoint. -/
def tokenFor (signer : SignerInput → Except SignErr Str) (env : EnvR)
    (ep : EndpointConfig) : Except SignErr Str :=
  generateDbConnectAdminAuthToken signer ep.host ep.region dbConnectAdminAction
    env.AWS_DSQL_ACCESS_KEY_ID env.AWS_DSQL_SECRET_ACCESS_KEY none

/-- The body of `scheduled` from `src/unnamed/part_000`/`part_001`, with the
endpoint list a parameter (the source instantiates it with its two fixed
endpoints). Token promises are started first; the listing is consumed into
the `existingConfigs` record; `Promise.all` joins the tokens; then the
upserts run, pairing `endpoints[index]` with `tokens[index]`. The returned
list is the trace of issued operations; the Bool is whether the run
completed. A listing failure aborts before the token join; a token failure
aborts before any upsert. -/
def reconcile (signer : SignerInput → Except SignErr Str) (env : EnvR)
    (endpoints : List EndpointConfig)
    (listing : Except ListErr (List RemoteConfig)) : List RemoteOp × Bool :=
  let signEvents := endpoints.map (fun ep => RemoteOp.sign ep.host ep.region)
  let tokenResults := endpoints.map (tokenFor signer env)
  match listing with
  | .error _ => (signEvents ++ [RemoteOp.list], false)
  | .ok configs =>
    let existingConfigs := buildIndex configs
    match collectTokens tokenResults with
    | .error _ => (signEvents ++ [RemoteOp.list], false)
    | .ok tokens =>
      (signEvents ++ RemoteOp.list ::
        List.zipWith
          (fun ep tok => upsertConfig ep (existingConfigs ep.configName) tok)
          endpoints tokens,
       true)

/-- The fixed endpoint list of `src/unnamed/part_000`. -/
def demoEndpoints (env : EnvR) : List EndpointConfig :=
  [⟨primaryName, env.AWS_DSQL_ENDPOINT_PRIMARY, env.AWS_DSQL_REGION_PRIMARY⟩,
   ⟨secondaryName, env.AWS_DSQL_ENDPOINT_SECONDARY, env.AWS_DSQL_REGION_SECONDARY⟩]

/-- `scheduled` from `src/unnamed/part_000`. -/
def scheduled (signer : SignerInput → Except SignErr Str) (env : EnvR)
    (listing : Except ListErr (List RemoteConfig)) : List RemoteOp × Bool :=
  reconcile signer env (demoEndpoints env) listing

/-- The fixed endpoint list of `src/unnamed/part_001`. -/
def adminDemoEndpoints (env : EnvR) : List EndpointConfig :=
  [⟨adminPrimaryName, env.AWS_DSQL_ENDPOINT_PRIMARY, env.AWS_DSQL_REGION_PRIMARY⟩,
   ⟨adminSecondaryName, env.AWS_DSQL_ENDPOINT_SECONDARY, env.AWS_DSQL_REGION_SECONDARY⟩]

/-- `scheduled` from `src/unnamed/part_001`. -/
def scheduledAdmin (signer : SignerInput → Except SignErr Str) (env : EnvR)
    (listing : Except ListErr (List RemoteConfig)) : List RemoteOp × Bool :=
  reconcile signer env (adminDemoEndpoints env) listing

/-- One `if (!found...)` branch of `scheduled` in `src/src/index.ts`:
when the config was not found, generate a token for the endpoint and create
the config; a signing failure aborts (the create is not issued). -/
def createBranch (signer : SignerInput → Except SignErr Str) (env : EnvR)
    (found : Bool) (name host region : Str) : List RemoteOp × Bool :=
  if found then ([], true)
  else
    match generateDbConnectAdminAuthToken signer host region dbConnectAdminAction
        env.AWS_DSQL_ACCESS_KEY_ID env.AWS_DSQL_SECRET_ACCESS_KEY none with
    | .error _ => ([.sign host region], false)
    | .ok password => ([.sign host region, .create name (mkOrigin host password)], true)

/-- `scheduled` from `src/src/index.ts`: list all configs, set the
`foundPrimary`/`foundSecondary` flags in the loop, then sequentially create
whichever of the two fixed configs is missing. No edit is ever issued. -/
def scheduledV1 (signer : SignerInput → Except SignErr Str) (env : EnvR)
    (listing : Except ListErr (List RemoteConfig)) : List RemoteOp × Bool :=
  match listing with
  | .error _ => ([RemoteOp.list], false)
  | .ok configs =>
    let foundPrimary := configs.any (fun config => config.name = primaryName)
    let foundSecondary := configs.any (fun config => config.name = secondaryName)
    let primaryPart := createBranch signer env foundPrimary primaryName
      env.AWS_DSQL_ENDPOINT_PRIMARY env.AWS_DSQL_REGION_PRIMARY
    if primaryPart.2 then
      let secondaryPart := createBranch signer env foundSecondary secondaryName
        env.AWS_DSQL_ENDPOINT_SECONDARY env.AWS_DSQL_REGION_SECONDARY
      (RemoteOp.list :: primaryPart.1 ++ secondaryPart.1, secondaryPart.2)
    else (RemoteOp.list :: primaryPart.1, false)

/-- The create/edit/delete operations of a trace (the writes). -/
def isMutation : RemoteOp → Bool
  | .sign _ _ => false
  | .list => false
  | _ => true

def mutationsOf (tr : List RemoteOp) : List RemoteOp := tr.filter isMutation

/-- The origin written by an operation, when it writes one. -/
def originOfOp : RemoteOp → Option HyperdriveOrigin
  | .create _ origin => some origin
  | .edit _ origin => some origin
  | _ => none

def isCreateNamed (nm : Str) : RemoteOp → Bool
  | .create n _ => n = nm
  | _ => false

def isEditOf (cid : Str) : RemoteOp → Bool
  | .edit i _ => i = cid
  | _ => false

def isEditOp : RemoteOp → Bool
  | .edit _ _ => true
  | _ => false

/-- Fresh id chosen by the remote service for a created config. -/
def newIdFor (s : List RemoteConfig) : Str :=
  "generated-id-".data ++ Nat.toDigits 10 s.length

/-- Modelled from the spec: the remote configuration service's state
transition (spec sections 3 and 6; the service itself is not part of this
repository). `create` appends a config with a service-assigned fresh id,
`edit` replaces exactly the origin of the config with that id, `delete`
removes it; `sign` and `list` do not change the config set. -/
def applyOp (s : List RemoteConfig) (op : RemoteOp) : List RemoteConfig :=
  match op with
  | .sign _ _ => s
  | .list => s
  | .create name origin => s ++ [⟨newIdFor s, name, origin⟩]
  | .edit cid origin => s.map (fun c => if c.id = cid then ⟨c.id, c.name, origin⟩ else c)
  | .delete cid => s.filter (fun c => ¬ c.id = cid)

/-- Effect of a whole trace on the remote config set. -/
def applyOps (tr : List RemoteOp) (s : List RemoteConfig) : List RemoteConfig :=
  tr.foldl applyOp s

/-- Value of an `ok` token result (placeholder on errors). -/
def getOk : Except SignErr Str → Str
  | .ok t => t
  | .error _ => []

/-- Sample environment used to instantiate theorems on concrete inputs. -/
def sampleEnv : EnvR where
  ENVIRONMENT := "dev".data
  AWS_DSQL_REGION_PRIMARY := "us-east-1".data
  AWS_DSQL_REGION_SECONDARY := "us-east-2".data
  AWS_DSQL_ACCESS_KEY_ID := "sample-access-key".data
  AWS_DSQL_SECRET_ACCESS_KEY := "sample-secret".data
  AWS_DSQL_ENDPOINT_PRIMARY := "p.dsql.us-east-1.on.aws".data
  AWS_DSQL_ENDPOINT_SECONDARY := "s.dsql.us-east-2.on.aws".data
  CLOUDFLARE_API_KEY_HYPERDRIVE := "cf-hyperdrive-key".data
  CLOUDFLARE_API_KEY := "cf-key".data
  CLOUDFLARE_ACCOUNT_ID := "account-1".data

def sampleHost : Str := "example.dsql.us-east-1.on.aws".data

def sampleRegion : Str := "us-east-1".data

def sampleKey : Str := "sample-access-key".data

def sampleSecret : Str := "sample-secret".data

/-- A signing collaborator that always fails. -/
def failSigner : SignerInput → Except SignErr Str := fun _ => .error ()

/-- Whether an Except result is a success. -/
def exceptIsOk : Except SignErr Str → Bool
  | .ok _ => true
  | .error _ => false

def oldToken : Str := "old-token".data

def sampleId1 : Str := "id1".data

def sampleId2 : Str := "id2".data

def sampleCfgs : List RemoteConfig := [⟨sampleId1, primaryName, mkOrigin sampleHost oldToken⟩]

def dupCfgs : List RemoteConfig :=
  [⟨sampleId1, primaryName, mkOrigin sampleHost oldToken⟩,
   ⟨sampleId2, primaryName, mkOrigin sampleHost oldToken⟩]


theorem plainSigner_ok : SignerOk plainSigner :=
  fun inp => ⟨urlQueryOf inp.url, rfl, rfl, rfl⟩

/-! ### Helper lemmas: encoding and query strings -/

theorem encode_cons (c : Char) (cs : Str) :
    encode (c :: cs) = encodeChar c ++ encode cs := by
  simp [encode]

theorem encode_safe {s : Str} (h : ∀ c ∈ s, formSafe c = true) : encode s = s := by
  induction s with
  | nil => rfl
  | cons c cs ih =>
    have hc := h c (List.mem_cons_self c cs)
    rw [encode_cons, ih (fun d hd => h d (List.mem_cons_of_mem c hd))]
    simp [encodeChar, hc]

theorem formSafe_ne {c : Char} (h : formSafe c = true) :
    ¬ c = '&' ∧ ¬ c = '=' ∧ ¬ c = '?' := by
  refine ⟨?_, ?_, ?_⟩ <;> intro hc <;> subst hc <;> exact absurd h (by decide)

theorem hostChar_ne {c : Char} (h : hostChar c = true) :
    ¬ c = '/' ∧ ¬ c = '?' ∧ ¬ c = ':' := by
  refine ⟨?_, ?_, ?_⟩ <;> intro hc <;> subst hc <;> exact absurd h (by decide)

theorem splitOnChar_ne_nil (c : Char) (l : Str) : splitOnChar c l ≠ [] := by
  cases l with
  | nil => simp [splitOnChar]
  | cons x xs =>
    simp only [splitOnChar]
    cases splitOnChar c xs with
    | nil => by_cases hx : x = c <;> simp [hx]
    | cons y ys => by_cases hx : x = c <;> simp [hx]

theorem splitOnChar_no_sep {c : Char} {l : Str} (h : ∀ a ∈ l, ¬ a = c) :
    splitOnChar c l = [l] := by
  induction l with
  | nil => rfl
  | cons x xs ih =>
    have hx : ¬ x = c := h x (List.mem_cons_self x xs)
    rw [splitOnChar, ih (fun a ha => h a (List.mem_cons_of_mem x ha))]
    simp [hx]

theorem splitOnChar_append {c : Char} {l₁ l₂ : Str} (h : ∀ a ∈ l₁, ¬ a = c) :
    splitOnChar c (l₁ ++ c :: l₂) = l₁ :: splitOnChar c l₂ := by
  induction l₁ with
  | nil =>
    simp only [List.nil_append, splitOnChar]
    cases hs : splitOnChar c l₂ with
    | nil => exact absurd hs (splitOnChar_ne_nil c l₂)
    | cons y ys => simp
  | cons x xs ih =>
    have hx : ¬ x = c := h x (List.mem_cons_self x xs)
    have hih := ih (fun a ha => h a (List.mem_cons_of_mem x ha))
    simp only [List.cons_append, splitOnChar, List.append_eq]
    rw [hih]
    simp [hx]

theorem parsePair_eq {k v : Str} (h : ∀ a ∈ k, ¬ a = '=') :
    parsePair (k ++ '=' :: v) = (k, v) := by
  unfold parsePair
  rw [List.takeWhile_append_of_pos (by simpa using h),
    List.dropWhile_append_of_pos (by simpa using h)]
  simp [List.dropWhile]

theorem token_no_scheme {host rest : Str} (hh : ∀ c ∈ host, hostChar c = true) :
    ¬ (httpsPrefix <+: host ++ '/' :: rest) := by
  intro hpre
  obtain ⟨t, ht⟩ := hpre
  have h8 : httpsPrefix.length = 8 := by decide
  by_cases hlen : 8 ≤ host.length
  · have htake := congrArg (fun l => List.take 8 l) ht
    simp only at htake
    rw [List.take_append_of_le_length (by omega),
      List.take_append_of_le_length hlen] at htake
    have hmem : ':' ∈ List.take 8 host := by
      rw [← htake]; decide
    exact absurd (hh ':' (List.mem_of_mem_take hmem)) (by decide)
  · push_neg at hlen
    have hq := congrArg (fun l => l[host.length]?) ht
    simp only at hq
    rw [List.getElem?_append_right (Nat.le_refl _), Nat.sub_self,
      List.getElem?_cons_zero] at hq
    rw [List.getElem?_append] at hq
    rw [if_pos (by omega)] at hq
    have htk := congrArg (fun l => List.take host.length l) ht
    simp only at htk
    rw [List.take_append_of_le_length (by omega), List.take_left] at htk
    have hn8 : host.length < 8 := hlen
    set n := host.length with hn
    interval_cases n
    · exact absurd hq (by decide)
    · exact absurd hq (by decide)
    · exact absurd hq (by decide)
    · exact absurd hq (by decide)
    · exact absurd hq (by decide)
    · exact absurd hq (by decide)
    · have : ':' ∈ host := by
        rw [← htk]; decide
      exact absurd (hh ':' this) (by decide)
    · have : ':' ∈ host := by
        rw [← htk]; decide
      exact absurd (hh ':' this) (by decide)

/-! ### Helper lemmas: the existingConfigs record and the token join -/

theorem buildIndex_foldl (cfgs : List RemoteConfig) (m : Record) (k : Str) :
    (cfgs.foldl (fun acc config => recordSet acc config.name config) m) k =
      (cfgs.reverse.find? (fun c => c.name = k)).elim (m k) some := by
  induction cfgs generalizing m with
  | nil => simp
  | cons c cs ih =>
    rw [List.foldl_cons, ih]
    simp only [List.reverse_cons, List.find?_append]
    cases hf : cs.reverse.find? (fun c => decide (c.name = k)) with
    | some d => simp
    | none =>
      by_cases hk : c.name = k
      · simp [recordSet, List.find?, hk]
      · have hk' : ¬ k = c.name := fun h => hk h.symm
        simp [recordSet, List.find?, hk, hk']

theorem buildIndex_eq (cfgs : List RemoteConfig) (k : Str) :
    buildIndex cfgs k = cfgs.reverse.find? (fun c => c.name = k) := by
  unfold buildIndex
  rw [buildIndex_foldl]
  cases cfgs.reverse.find? (fun c => decide (c.name = k)) <;> rfl

theorem buildIndex_some {cfgs : List RemoteConfig} {k : Str} {c : RemoteConfig}
    (h : buildIndex cfgs k = some c) : c ∈ cfgs ∧ c.name = k := by
  rw [buildIndex_eq] at h
  refine ⟨List.mem_reverse.mp (List.mem_of_find?_eq_some h), ?_⟩
  simpa using List.find?_some h

theorem buildIndex_none {cfgs : List RemoteConfig} {k : Str}
    (h : buildIndex cfgs k = none) : ∀ c ∈ cfgs, ¬ c.name = k := by
  rw [buildIndex_eq] at h
  intro c hc
  simpa using List.find?_eq_none.mp h c (List.mem_reverse.mpr hc)

theorem buildIndex_isSome {cfgs : List RemoteConfig} {k : Str} {c : RemoteConfig}
    (hc : c ∈ cfgs) (hk : c.name = k) : ∃ d, buildIndex cfgs k = some d := by
  cases h : buildIndex cfgs k with
  | some d => exact ⟨d, rfl⟩
  | none => exact absurd hk (buildIndex_none h c hc)

theorem buildIndex_nodup_some {cfgs : List RemoteConfig} {k : Str} {c : RemoteConfig}
    (hnd : (cfgs.map (fun c => c.name)).Nodup) (hc : c ∈ cfgs) (hk : c.name = k) :
    buildIndex cfgs k = some c := by
  obtain ⟨d, hd⟩ := buildIndex_isSome hc hk
  obtain ⟨hdmem, hdname⟩ := buildIndex_some hd
  have : d = c :=
    List.inj_on_of_nodup_map hnd hdmem hc (hdname.trans hk.symm)
  rw [hd, this]

theorem collectTokens_ok {l : List (Except SignErr Str)}
    (h : ∀ x ∈ l, ∃ t, x = .ok t) : collectTokens l = .ok (l.map getOk) := by
  induction l with
  | nil => rfl
  | cons x xs ih =>
    obtain ⟨t, ht⟩ := h x (List.mem_cons_self x xs)
    subst ht
    rw [List.map_cons]
    show (match collectTokens xs with
      | .error e => (.error e : Except SignErr (List Str))
      | .ok ts => .ok (t :: ts)) = _
    rw [ih (fun y hy => h y (List.mem_cons_of_mem _ hy))]
    rfl

theorem collectTokens_mem_ok {l : List (Except SignErr Str)} {ts : List Str}
    (h : collectTokens l = .ok ts) : ∀ x ∈ l, ∃ t, x = .ok t := by
  induction l generalizing ts with
  | nil => intro x hx; cases hx
  | cons x xs ih =>
    intro y hy
    cases x with
    | error e => exact absurd h (by simp [collectTokens])
    | ok t =>
      rcases List.mem_cons.mp hy with rfl | hmem
      · exact ⟨t, rfl⟩
      · have hx : collectTokens (Except.ok t :: xs) = (match collectTokens xs with
          | .error e => (.error e : Except SignErr (List Str))
          | .ok ts => .ok (t :: ts)) := rfl
        rw [hx] at h
        cases hts : collectTokens xs with
        | error e => rw [hts] at h; cases h
        | ok ts' => exact ih hts y hmem

/-! ### Helper lemmas: structure of a successful reconcile run -/

theorem reconcile_ok_eq {signer : SignerInput → Except SignErr Str} {env : EnvR}
    {endpoints : List EndpointConfig} {cfgs : List RemoteConfig}
    (htok : ∀ ep ∈ endpoints, ∃ t, tokenFor signer env ep = .ok t) :
    reconcile signer env endpoints (.ok cfgs) =
      (endpoints.map (fun ep => RemoteOp.sign ep.host ep.region) ++ RemoteOp.list ::
        endpoints.map (fun ep =>
          upsertConfig ep (buildIndex cfgs ep.configName)
            (getOk (tokenFor signer env ep))),
       true) := by
  have hct : collectTokens (endpoints.map (tokenFor signer env)) =
      .ok ((endpoints.map (tokenFor signer env)).map getOk) :=
    collectTokens_ok (by
      intro x hx
      obtain ⟨ep, hep, hx'⟩ := List.mem_map.mp hx
      obtain ⟨t, ht⟩ := htok ep hep
      exact ⟨t, by rw [← hx', ht]⟩)
  unfold reconcile
  simp only [hct, List.map_map]
  rw [List.zipWith_map_right, List.zipWith_same]
  rfl

theorem countP_eq_one_of {α : Type} {l : List α} {p : α → Bool} {x : α}
    (hnd : l.Nodup) (hx : x ∈ l) (hpx : p x = true)
    (huniq : ∀ y ∈ l, p y = true → y = x) : l.countP p = 1 := by
  induction l with
  | nil => cases hx
  | cons a as ih =>
    rw [List.countP_cons]
    rcases List.mem_cons.mp hx with rfl | hmem
    · rw [if_pos hpx]
      have hz : as.countP p = 0 := List.countP_eq_zero.mpr (by
        intro b hb hpb
        have hbx := huniq b (List.mem_cons_of_mem _ hb) hpb
        subst hbx
        exact (List.nodup_cons.mp hnd).1 hb)
      omega
    · have hpa : ¬ p a = true := by
        intro hpa
        have hax := huniq a (List.mem_cons_self a as) hpa
        subst hax
        exact (List.nodup_cons.mp hnd).1 hmem
      rw [if_neg hpa,
        ih (List.nodup_cons.mp hnd).2 hmem
          (fun y hy hpy => huniq y (List.mem_cons_of_mem _ hy) hpy)]

/-! ### Helper lemmas: effect of a trace on the remote config set -/

theorem applyOps_keeps {tr : List RemoteOp} (hdel : ∀ cid, RemoteOp.delete cid ∉ tr) :
    ∀ {s : List RemoteConfig} {c : RemoteConfig}, c ∈ s →
      ∃ c' ∈ applyOps tr s, c'.id = c.id ∧ c'.name = c.name := by
  induction tr with
  | nil => intro s c hc; exact ⟨c, hc, rfl, rfl⟩
  | cons op ops ih =>
    intro s c hc
    have hdel' : ∀ cid, RemoteOp.delete cid ∉ ops :=
      fun cid h => hdel cid (List.mem_cons_of_mem _ h)
    show ∃ c' ∈ applyOps ops (applyOp s op), c'.id = c.id ∧ c'.name = c.name
    cases op with
    | sign h r => exact ih hdel' hc
    | list => exact ih hdel' hc
    | create n o => exact ih hdel' (List.mem_append.mpr (Or.inl hc))
    | edit cid o =>
      have hmem : (if c.id = cid then RemoteConfig.mk c.id c.name o else c) ∈
          s.map (fun d => if d.id = cid then RemoteConfig.mk d.id d.name o else d) :=
        List.mem_map.mpr ⟨c, hc, rfl⟩
      obtain ⟨c', hc', hid, hname⟩ := ih hdel' hmem
      have hid2 : (if c.id = cid then RemoteConfig.mk c.id c.name o else c).id = c.id := by
        by_cases h : c.id = cid <;> simp [h]
      have hname2 : (if c.id = cid then RemoteConfig.mk c.id c.name o else c).name = c.name := by
        by_cases h : c.id = cid <;> simp [h]
      exact ⟨c', hc', hid.trans hid2, hname.trans hname2⟩
    | delete cid => exact absurd (List.mem_cons_self _ _) (hdel cid)

theorem applyOps_name_present {tr : List RemoteOp}
    (hdel : ∀ cid, RemoteOp.delete cid ∉ tr) {s : List RemoteConfig} {n : Str}
    (h : ∃ c ∈ s, c.name = n) : ∃ c ∈ applyOps tr s, c.name = n := by
  obtain ⟨c, hc, hn⟩ := h
  obtain ⟨c', hc', _, hname⟩ := applyOps_keeps hdel hc
  exact ⟨c', hc', hname.trans hn⟩

theorem applyOps_create_mem {tr : List RemoteOp}
    (hdel : ∀ cid, RemoteOp.delete cid ∉ tr) {n : Str} {o : HyperdriveOrigin}
    (hcr : RemoteOp.create n o ∈ tr) :
    ∀ s, ∃ c ∈ applyOps tr s, c.name = n := by
  induction tr with
  | nil => cases hcr
  | cons op ops ih =>
    intro s
    have hdel' : ∀ cid, RemoteOp.delete cid ∉ ops :=
      fun cid h => hdel cid (List.mem_cons_of_mem _ h)
    rcases List.mem_cons.mp hcr with heq | hmem
    · subst heq
      show ∃ c ∈ applyOps ops (s ++ [⟨newIdFor s, n, o⟩]), c.name = n
      exact applyOps_name_present hdel'
        ⟨⟨newIdFor s, n, o⟩, List.mem_append.mpr (Or.inr (List.mem_singleton.mpr rfl)), rfl⟩
    · exact ih hdel' hmem (applyOp s op)

/-! ### Helper lemmas: shapes of serialized URLs -/

theorem urlHostOf_of_shape {host rest : Str} (hh : ∀ c ∈ host, hostChar c = true) :
    urlHostOf (httpsPrefix ++ (host ++ '/' :: rest)) = host := by
  unfold urlHostOf
  rw [List.drop_left' (by decide : httpsPrefix.length = 8),
    List.takeWhile_append_of_pos (by intro a ha; simpa using (hostChar_ne (hh a ha)).1)]
  simp [List.takeWhile]

theorem urlQueryOf_of_shape {host qs : Str} (hh : ∀ c ∈ host, hostChar c = true) :
    urlQueryOf (httpsPrefix ++ (host ++ '/' :: '?' :: qs)) = qs := by
  unfold urlQueryOf
  rw [List.dropWhile_append_of_pos (by decide),
    List.dropWhile_append_of_pos (by intro a ha; simpa using (hostChar_ne (hh a ha)).2.1)]
  simp [List.dropWhile]

theorem urlQueryOf_token {host qs : Str} (hh : ∀ c ∈ host, hostChar c = true) :
    urlQueryOf (host ++ '/' :: '?' :: qs) = qs := by
  unfold urlQueryOf
  rw [List.dropWhile_append_of_pos (by intro a ha; simpa using (hostChar_ne (hh a ha)).2.1)]
  simp [List.dropWhile]

theorem parseQuery_two {k₁ v₁ k₂ v₂ : Str}
    (h₁ : ∀ a ∈ k₁ ++ '=' :: v₁, ¬ a = '&') (hk₁ : ∀ a ∈ k₁, ¬ a = '=')
    (h₂ : ∀ a ∈ k₂ ++ '=' :: v₂, ¬ a = '&') (hk₂ : ∀ a ∈ k₂, ¬ a = '=') :
    parseQuery ((k₁ ++ '=' :: v₁) ++ '&' :: (k₂ ++ '=' :: v₂)) = [(k₁, v₁), (k₂, v₂)] := by
  unfold parseQuery
  rw [splitOnChar_append h₁, splitOnChar_no_sep h₂]
  simp [parsePair_eq hk₁, parsePair_eq hk₂]

/-- C2: for all valid inputs, the token-signing function returns a string that
does not start with `https://` and whose query string contains exactly one
`Action` parameter with the action argument as value and exactly one
`X-Amz-Expires` parameter with value `604800`. -/
theorem tokenSigner_output_shape (signer : SignerInput → Except SignErr Str)
    (host region action akid skey : Str) (st : Option Str)
    (hsig : SignerOk signer)
    (hhost : host ≠ [] ∧ ∀ c ∈ host, hostChar c = true)
    (haction : ∀ c ∈ action, formSafe c = true) :
    ∃ r, generateDbConnectAdminAuthToken signer host region action akid skey st = .ok r ∧
      ¬ (httpsPrefix <+: r) ∧
      (parseQuery (urlQueryOf r)).filter (fun p => p.1 = actionKey) = [(actionKey, action)] ∧
      (parseQuery (urlQueryOf r)).filter (fun p => p.1 = expiresKey) = [(expiresKey, expiresVal)] := by
  obtain ⟨hne, hh⟩ := hhost
  have hsp : setParam (setParam [] actionKey action) expiresKey expiresVal
      = [(actionKey, action), (expiresKey, expiresVal)] := by
    show setParam [(actionKey, action)] expiresKey expiresVal = _
    unfold setParam
    rw [if_neg (fun h => absurd (h : actionKey = expiresKey) (by decide))]
    rfl
  have heact : encode action = action := encode_safe haction
  have heA : encode actionKey = actionKey := by decide
  have heE : encode expiresKey = expiresKey := by decide
  have heV : encode expiresVal = expiresVal := by decide
  have hq : renderQuery [(actionKey, action), (expiresKey, expiresVal)] =
      (actionKey ++ '=' :: action) ++ '&' :: (expiresKey ++ '=' :: expiresVal) := by
    simp [renderQuery, renderPair, List.intersperse, heact, heA, heE, heV,
      List.append_assoc]
  have hru : renderUrl ⟨host, setParam (setParam [] actionKey action) expiresKey expiresVal⟩ =
      httpsPrefix ++ (host ++ '/' :: '?' ::
        ((actionKey ++ '=' :: action) ++ '&' :: (expiresKey ++ '=' :: expiresVal))) := by
    rw [hsp]
    show httpsPrefix ++ host ++ '/' :: '?' ::
        renderQuery [(actionKey, action), (expiresKey, expiresVal)] = _
    rw [hq]
    simp [List.append_assoc]
  obtain ⟨qs, hsg, hact, hexp⟩ := hsig ⟨renderUrl ⟨host,
    setParam (setParam [] actionKey action) expiresKey expiresVal⟩,
    getMethod, dsqlService, region, akid, skey, st, true⟩
  dsimp only at hsg hact hexp
  have hpq : parseQuery ((actionKey ++ '=' :: action) ++ '&' ::
      (expiresKey ++ '=' :: expiresVal)) = [(actionKey, action), (expiresKey, expiresVal)] := by
    refine parseQuery_two ?_ ?_ ?_ ?_
    · intro a ha
      rcases List.mem_append.mp ha with h1 | h2
      · exact (by decide : ∀ x ∈ actionKey, ¬ x = '&') a h1
      · rcases List.mem_cons.mp h2 with rfl | h3
        · decide
        · exact (formSafe_ne (haction a h3)).1
    · decide
    · decide
    · decide
  have hfa : ∀ v w : Str,
      List.filter (fun p => p.1 = actionKey) [(actionKey, v), (expiresKey, w)]
        = [(actionKey, v)] := by
    intro v w
    rw [List.filter_cons, if_pos (decide_eq_true rfl), List.filter_cons,
      if_neg (fun hc => absurd ((of_decide_eq_true hc) : expiresKey = actionKey) (by decide)),
      List.filter_nil]
  have hfe : ∀ v w : Str,
      List.filter (fun p => p.1 = expiresKey) [(actionKey, v), (expiresKey, w)]
        = [(expiresKey, w)] := by
    intro v w
    rw [List.filter_cons,
      if_neg (fun hc => absurd ((of_decide_eq_true hc) : actionKey = expiresKey) (by decide)),
      List.filter_cons, if_pos (decide_eq_true rfl), List.filter_nil]
  have hres : generateDbConnectAdminAuthToken signer host region action akid skey st =
      .ok ((httpsPrefix ++ urlHostOf (renderUrl ⟨host,
        setParam (setParam [] actionKey action) expiresKey expiresVal⟩) ++
        '/' :: '?' :: qs).drop httpsPrefix.length) := by
    show (match signer ⟨renderUrl ⟨host,
        setParam (setParam [] actionKey action) expiresKey expiresVal⟩,
        getMethod, dsqlService, region, akid, skey, st, true⟩ with
      | .error e => (.error e : Except SignErr Str)
      | .ok su => .ok (su.drop httpsPrefix.length)) = _
    rw [hsg]
  rw [hru, urlHostOf_of_shape hh, List.append_assoc, List.drop_left] at hres
  rw [hru, urlQueryOf_of_shape hh, hpq] at hact hexp
  refine ⟨host ++ '/' :: '?' :: qs, hres, token_no_scheme hh, ?_, ?_⟩
  · rw [urlQueryOf_token hh, hact, hfa]
  · rw [urlQueryOf_token hh, hexp, hfe]

/-- Witness for C2: the shape theorem applied at concrete inputs. -/
theorem tokenSigner_output_shape_witness :
    ∃ r, generateDbConnectAdminAuthToken plainSigner sampleHost sampleRegion
        dbConnectAdminAction sampleKey sampleSecret none = .ok r ∧
      ¬ (httpsPrefix <+: r) ∧
      (parseQuery (urlQueryOf r)).filter (fun p => p.1 = actionKey)
        = [(actionKey, dbConnectAdminAction)] ∧
      (parseQuery (urlQueryOf r)).filter (fun p => p.1 = expiresKey)
        = [(expiresKey, expiresVal)] :=
  tokenSigner_output_shape plainSigner sampleHost sampleRegion dbConnectAdminAction
    sampleKey sampleSecret none plainSigner_ok ⟨by decide, by decide⟩ (by decide)

/-! ### Trace shape helper lemmas -/

theorem mem_zipWith {α β γ : Type} {f : α → β → γ} {l₁ : List α} {l₂ : List β} {c : γ}
    (h : c ∈ List.zipWith f l₁ l₂) : ∃ a b, a ∈ l₁ ∧ b ∈ l₂ ∧ c = f a b := by
  induction l₁ generalizing l₂ with
  | nil => cases h
  | cons x xs ih =>
    cases l₂ with
    | nil => cases h
    | cons y ys =>
      rcases List.mem_cons.mp h with rfl | hmem
      · exact ⟨x, y, List.mem_cons_self x xs, List.mem_cons_self y ys, rfl⟩
      · obtain ⟨a, b, ha, hb, hc⟩ := ih hmem
        exact ⟨a, b, List.mem_cons_of_mem _ ha, List.mem_cons_of_mem _ hb, hc⟩

theorem mutationsOf_append (a b : List RemoteOp) :
    mutationsOf (a ++ b) = mutationsOf a ++ mutationsOf b := List.filter_append a b

theorem mutationsOf_signs (l : List EndpointConfig) :
    mutationsOf (l.map (fun ep => RemoteOp.sign ep.host ep.region)) = [] := by
  unfold mutationsOf
  rw [List.filter_eq_nil_iff]
  intro a ha
  obtain ⟨ep, hep, hx⟩ := List.mem_map.mp ha
  rw [← hx]
  simp [isMutation]

theorem mutationsOf_aborted (l : List EndpointConfig) :
    mutationsOf (l.map (fun ep => RemoteOp.sign ep.host ep.region) ++ [RemoteOp.list]) = [] := by
  rw [mutationsOf_append, mutationsOf_signs]
  rfl

theorem reconcile_error_eq (signer : SignerInput → Except SignErr Str) (env : EnvR)
    (endpoints : List EndpointConfig) (e : ListErr) :
    reconcile signer env endpoints (.error e) =
      (endpoints.map (fun ep => RemoteOp.sign ep.host ep.region) ++ [RemoteOp.list], false) :=
  rfl

theorem reconcile_tokfail_eq {signer : SignerInput → Except SignErr Str} {env : EnvR}
    {endpoints : List EndpointConfig} {cfgs : List RemoteConfig} {e : SignErr}
    (h : collectTokens (endpoints.map (tokenFor signer env)) = .error e) :
    reconcile signer env endpoints (.ok cfgs) =
      (endpoints.map (fun ep => RemoteOp.sign ep.host ep.region) ++ [RemoteOp.list], false) := by
  unfold reconcile
  simp only [h]

theorem reconcile_ops_shape {signer : SignerInput → Except SignErr Str} {env : EnvR}
    {endpoints : List EndpointConfig} {listing : Except ListErr (List RemoteConfig)} :
    ∀ op ∈ (reconcile signer env endpoints listing).1,
      (∃ h r, op = RemoteOp.sign h r) ∨ op = RemoteOp.list ∨
      (∃ ep, ep ∈ endpoints ∧ ∃ cfg tok, op = upsertConfig ep cfg tok) := by
  intro op hop
  cases listing with
  | error e =>
    rw [reconcile_error_eq] at hop
    rcases List.mem_append.mp hop with h1 | h2
    · obtain ⟨ep, _, hx⟩ := List.mem_map.mp h1
      exact Or.inl ⟨ep.host, ep.region, hx.symm⟩
    · rcases List.mem_cons.mp h2 with rfl | h3
      · exact Or.inr (Or.inl rfl)
      · cases h3
  | ok cfgs =>
    cases hct : collectTokens (endpoints.map (tokenFor signer env)) with
    | error e =>
      rw [reconcile_tokfail_eq hct] at hop
      rcases List.mem_append.mp hop with h1 | h2
      · obtain ⟨ep, _, hx⟩ := List.mem_map.mp h1
        exact Or.inl ⟨ep.host, ep.region, hx.symm⟩
      · rcases List.mem_cons.mp h2 with rfl | h3
        · exact Or.inr (Or.inl rfl)
        · cases h3
    | ok tokens =>
      have hop' : op ∈ endpoints.map (fun ep => RemoteOp.sign ep.host ep.region) ++
          RemoteOp.list :: List.zipWith
            (fun ep tok => upsertConfig ep (buildIndex cfgs ep.configName) tok)
            endpoints tokens := by
        revert hop
        unfold reconcile
        simp only [hct]
        exact fun h => h
      rcases List.mem_append.mp hop' with h1 | h2
      · obtain ⟨ep, _, hx⟩ := List.mem_map.mp h1
        exact Or.inl ⟨ep.host, ep.region, hx.symm⟩
      · rcases List.mem_cons.mp h2 with rfl | h3
        · exact Or.inr (Or.inl rfl)
        · obtain ⟨ep, tok, hep, _, hx⟩ := mem_zipWith h3
          exact Or.inr (Or.inr ⟨ep, hep, buildIndex cfgs ep.configName, tok, hx⟩)

theorem createBranch_ops {signer : SignerInput → Except SignErr Str} {env : EnvR}
    {found : Bool} {name host region : Str} :
    ∀ op ∈ (createBranch signer env found name host region).1,
      op = RemoteOp.sign host region ∨
      ∃ pw, op = RemoteOp.create name (mkOrigin host pw) := by
  intro op hop
  unfold createBranch at hop
  by_cases hf : found
  · rw [if_pos hf] at hop
    cases hop
  · rw [if_neg hf] at hop
    cases hg : generateDbConnectAdminAuthToken signer host region dbConnectAdminAction
        env.AWS_DSQL_ACCESS_KEY_ID env.AWS_DSQL_SECRET_ACCESS_KEY none with
    | error e =>
      rw [hg] at hop
      rcases List.mem_cons.mp hop with rfl | h3
      · exact Or.inl rfl
      · cases h3
    | ok pw =>
      rw [hg] at hop
      rcases List.mem_cons.mp hop with rfl | h3
      · exact Or.inl rfl
      · rcases List.mem_cons.mp h3 with rfl | h4
        · exact Or.inr ⟨pw, rfl⟩
        · cases h4

theorem scheduledV1_ops {signer : SignerInput → Except SignErr Str} {env : EnvR}
    {listing : Except ListErr (List RemoteConfig)} :
    ∀ op ∈ (scheduledV1 signer env listing).1,
      op = RemoteOp.list ∨
      (∃ h r, op = RemoteOp.sign h r) ∨
      (∃ pw, op = RemoteOp.create primaryName (mkOrigin env.AWS_DSQL_ENDPOINT_PRIMARY pw)) ∨
      (∃ pw, op = RemoteOp.create secondaryName (mkOrigin env.AWS_DSQL_ENDPOINT_SECONDARY pw)) := by
  intro op hop
  cases listing with
  | error e =>
    rcases List.mem_cons.mp hop with rfl | h3
    · exact Or.inl rfl
    · cases h3
  | ok configs =>
    have hop' : op ∈ RemoteOp.list ::
        (createBranch signer env (configs.any (fun config => config.name = primaryName))
          primaryName env.AWS_DSQL_ENDPOINT_PRIMARY env.AWS_DSQL_REGION_PRIMARY).1 ++
        (createBranch signer env (configs.any (fun config => config.name = secondaryName))
          secondaryName env.AWS_DSQL_ENDPOINT_SECONDARY env.AWS_DSQL_REGION_SECONDARY).1 ∨
        op ∈ RemoteOp.list ::
        (createBranch signer env (configs.any (fun config => config.name = primaryName))
          primaryName env.AWS_DSQL_ENDPOINT_PRIMARY env.AWS_DSQL_REGION_PRIMARY).1 := by
      revert hop
      unfold scheduledV1
      dsimp only
      by_cases hp : (createBranch signer env (configs.any (fun config => config.name = primaryName))
          primaryName env.AWS_DSQL_ENDPOINT_PRIMARY env.AWS_DSQL_REGION_PRIMARY).2
      · rw [if_pos hp]
        exact fun h => Or.inl h
      · rw [if_neg hp]
        exact fun h => Or.inr h
    have hfromP : ∀ o ∈ (createBranch signer env
        (configs.any (fun config => config.name = primaryName))
        primaryName env.AWS_DSQL_ENDPOINT_PRIMARY env.AWS_DSQL_REGION_PRIMARY).1,
        o = RemoteOp.list ∨ (∃ h r, o = RemoteOp.sign h r) ∨
        (∃ pw, o = RemoteOp.create primaryName (mkOrigin env.AWS_DSQL_ENDPOINT_PRIMARY pw)) ∨
        (∃ pw, o = RemoteOp.create secondaryName (mkOrigin env.AWS_DSQL_ENDPOINT_SECONDARY pw)) := by
      intro o ho
      rcases createBranch_ops o ho with h | ⟨pw, h⟩
      · exact Or.inr (Or.inl ⟨_, _, h⟩)
      · exact Or.inr (Or.inr (Or.inl ⟨pw, h⟩))
    have hfromS : ∀ o ∈ (createBranch signer env
        (configs.any (fun config => config.name = secondaryName))
        secondaryName env.AWS_DSQL_ENDPOINT_SECONDARY env.AWS_DSQL_REGION_SECONDARY).1,
        o = RemoteOp.list ∨ (∃ h r, o = RemoteOp.sign h r) ∨
        (∃ pw, o = RemoteOp.create primaryName (mkOrigin env.AWS_DSQL_ENDPOINT_PRIMARY pw)) ∨
        (∃ pw, o = RemoteOp.create secondaryName (mkOrigin env.AWS_DSQL_ENDPOINT_SECONDARY pw)) := by
      intro o ho
      rcases createBranch_ops o ho with h | ⟨pw, h⟩
      · exact Or.inr (Or.inl ⟨_, _, h⟩)
      · exact Or.inr (Or.inr (Or.inr ⟨pw, h⟩))
    rcases hop' with h | h
    · rcases List.mem_cons.mp h with rfl | h2
      · exact Or.inl rfl
      · rcases List.mem_append.mp h2 with h3 | h3
        · exact hfromP op h3
        · exact hfromS op h3
    · rcases List.mem_cons.mp h with rfl | h2
      · exact Or.inl rfl
      · exact hfromP op h2

/-- C4: if the enumeration of existing remote configs fails, the run
terminates as failed without issuing any create or edit call, in both
`scheduled` variants. -/
theorem listError_failfast (signer : SignerInput → Except SignErr Str) (env : EnvR)
    (endpoints : List EndpointConfig) (e : ListErr) :
    mutationsOf (reconcile signer env endpoints (.error e)).1 = [] ∧
    (reconcile signer env endpoints (.error e)).2 = false ∧
    mutationsOf (scheduledV1 signer env (.error e)).1 = [] ∧
    (scheduledV1 signer env (.error e)).2 = false := by
  refine ⟨?_, rfl, rfl, rfl⟩
  rw [reconcile_error_eq]
  exact mutationsOf_aborted endpoints

/-- C5: if token generation fails for any single endpoint, no create or
edit call is issued for any endpoint in that run: the joined token phase
failing aborts the entire upsert phase. -/
theorem signFailure_aborts_upserts (signer : SignerInput → Except SignErr Str) (env : EnvR)
    (endpoints : List EndpointConfig) (listing : Except ListErr (List RemoteConfig))
    (hfail : ∃ ep ∈ endpoints, exceptIsOk (tokenFor signer env ep) = false) :
    mutationsOf (reconcile signer env endpoints listing).1 = [] := by
  cases listing with
  | error e =>
    rw [reconcile_error_eq]
    exact mutationsOf_aborted endpoints
  | ok cfgs =>
    cases hct : collectTokens (endpoints.map (tokenFor signer env)) with
    | error e =>
      rw [reconcile_tokfail_eq hct]
      exact mutationsOf_aborted endpoints
    | ok ts =>
      obtain ⟨ep, hep, hne⟩ := hfail
      obtain ⟨t, ht⟩ := collectTokens_mem_ok hct (tokenFor signer env ep)
        (List.mem_map.mpr ⟨ep, hep, rfl⟩)
      rw [ht] at hne
      simp [exceptIsOk] at hne

/-- Witness for C5 at a concrete failing signer. -/
theorem signFailure_aborts_upserts_witness :
    mutationsOf (reconcile failSigner sampleEnv (demoEndpoints sampleEnv) (.ok [])).1 = [] :=
  signFailure_aborts_upserts failSigner sampleEnv (demoEndpoints sampleEnv) (.ok [])
    (by decide)

/-- C7: a reconciliation run never issues a delete operation, and every
config present before the run is still present (same id and name) after the
run's trace is applied, in both `scheduled` variants. -/
theorem no_delete_ever (signer : SignerInput → Except SignErr Str) (env : EnvR)
    (endpoints : List EndpointConfig) (listing : Except ListErr (List RemoteConfig))
    (cfgs : List RemoteConfig) (hlist : listing = .ok cfgs) :
    (∀ cid, RemoteOp.delete cid ∉ (reconcile signer env endpoints listing).1) ∧
    (∀ cid, RemoteOp.delete cid ∉ (scheduledV1 signer env listing).1) ∧
    (∀ c ∈ cfgs, ∃ c' ∈ applyOps (reconcile signer env endpoints listing).1 cfgs,
      c'.id = c.id ∧ c'.name = c.name) ∧
    (∀ c ∈ cfgs, ∃ c' ∈ applyOps (scheduledV1 signer env listing).1 cfgs,
      c'.id = c.id ∧ c'.name = c.name) := by
  have hdel1 : ∀ cid, RemoteOp.delete cid ∉ (reconcile signer env endpoints listing).1 := by
    intro cid hmem
    rcases reconcile_ops_shape _ hmem with ⟨h, r, he⟩ | he | ⟨ep, _, cfg, tok, he⟩
    · cases he
    · cases he
    · cases cfg <;> simp [upsertConfig] at he
  have hdel2 : ∀ cid, RemoteOp.delete cid ∉ (scheduledV1 signer env listing).1 := by
    intro cid hmem
    rcases scheduledV1_ops _ hmem with he | ⟨h, r, he⟩ | ⟨pw, he⟩ | ⟨pw, he⟩ <;> cases he
  exact ⟨hdel1, hdel2,
    fun c hc => applyOps_keeps hdel1 hc,
    fun c hc => applyOps_keeps hdel2 hc⟩

/-- Witness for C7 at concrete inputs. -/
theorem no_delete_ever_witness :
    (∀ cid, RemoteOp.delete cid ∉
      (reconcile plainSigner sampleEnv (demoEndpoints sampleEnv) (.ok sampleCfgs)).1) ∧
    (∀ cid, RemoteOp.delete cid ∉ (scheduledV1 plainSigner sampleEnv (.ok sampleCfgs)).1) ∧
    (∀ c ∈ sampleCfgs, ∃ c' ∈ applyOps
      (reconcile plainSigner sampleEnv (demoEndpoints sampleEnv) (.ok sampleCfgs)).1 sampleCfgs,
      c'.id = c.id ∧ c'.name = c.name) ∧
    (∀ c ∈ sampleCfgs, ∃ c' ∈ applyOps
      (scheduledV1 plainSigner sampleEnv (.ok sampleCfgs)).1 sampleCfgs,
      c'.id = c.id ∧ c'.name = c.name) :=
  no_delete_ever plainSigner sampleEnv (demoEndpoints sampleEnv) (.ok sampleCfgs)
    sampleCfgs rfl

theorem isMutation_upsert (ep : EndpointConfig) (cfg : Option RemoteConfig) (tok : Str) :
    isMutation (upsertConfig ep cfg tok) = true := by
  cases cfg <;> rfl

theorem mutationsOf_reconcile_ok {signer : SignerInput → Except SignErr Str} {env : EnvR}
    {endpoints : List EndpointConfig} {cfgs : List RemoteConfig}
    (htok : ∀ ep ∈ endpoints, ∃ t, tokenFor signer env ep = .ok t) :
    mutationsOf (reconcile signer env endpoints (.ok cfgs)).1 =
      endpoints.map (fun ep => upsertConfig ep (buildIndex cfgs ep.configName)
        (getOk (tokenFor signer env ep))) := by
  rw [reconcile_ok_eq htok]
  show mutationsOf (endpoints.map (fun ep => RemoteOp.sign ep.host ep.region) ++
    RemoteOp.list :: endpoints.map (fun ep => upsertConfig ep (buildIndex cfgs ep.configName)
      (getOk (tokenFor signer env ep)))) = _
  rw [mutationsOf_append, mutationsOf_signs, List.nil_append]
  unfold mutationsOf
  rw [List.filter_cons]
  rw [if_neg (by simp [isMutation])]
  rw [List.filter_eq_self.mpr]
  intro a ha
  obtain ⟨ep, _, hx⟩ := List.mem_map.mp ha
  rw [← hx]
  exact isMutation_upsert ep _ _

/-- C1: for every endpoint, a successful run issues exactly one edit (of the
listed config with that endpoint's configName, with the fresh token as
password and the endpoint's host, leaving every config's name unchanged)
when such a config is listed, and exactly one create under that configName
when none is listed; never a create when one exists and never an edit when
none exists. -/
theorem upsert_edit_or_create (signer : SignerInput → Except SignErr Str) (env : EnvR)
    (endpoints : List EndpointConfig) (cfgs : List RemoteConfig)
    (i : Nat) (hi : i < endpoints.length)
    (hnd : (endpoints.map (fun ep => ep.configName)).Nodup)
    (hcfg : (cfgs.map (fun c => c.name)).Nodup)
    (hid : (cfgs.map (fun c => c.id)).Nodup)
    (htok : ∀ ep ∈ endpoints, ∃ t, tokenFor signer env ep = .ok t) :
    (mutationsOf (reconcile signer env endpoints (.ok cfgs)).1).length = endpoints.length ∧
    (∀ hm : i < (mutationsOf (reconcile signer env endpoints (.ok cfgs)).1).length,
      (∀ c ∈ cfgs, c.name = (endpoints.get ⟨i, hi⟩).configName →
        ∃ tok, tokenFor signer env (endpoints.get ⟨i, hi⟩) = .ok tok ∧
          (mutationsOf (reconcile signer env endpoints (.ok cfgs)).1).get ⟨i, hm⟩ =
            RemoteOp.edit c.id (mkOrigin (endpoints.get ⟨i, hi⟩).host tok) ∧
          ((mutationsOf (reconcile signer env endpoints (.ok cfgs)).1).filter
            (isEditOf c.id)).length = 1 ∧
          ((mutationsOf (reconcile signer env endpoints (.ok cfgs)).1).filter
            (isCreateNamed (endpoints.get ⟨i, hi⟩).configName)).length = 0 ∧
          (applyOp cfgs ((mutationsOf (reconcile signer env endpoints (.ok cfgs)).1).get
            ⟨i, hm⟩)).map (fun d => d.name) = cfgs.map (fun d => d.name)) ∧
      ((∀ c ∈ cfgs, ¬ c.name = (endpoints.get ⟨i, hi⟩).configName) →
        ∃ tok, tokenFor signer env (endpoints.get ⟨i, hi⟩) = .ok tok ∧
          (mutationsOf (reconcile signer env endpoints (.ok cfgs)).1).get ⟨i, hm⟩ =
            RemoteOp.create (endpoints.get ⟨i, hi⟩).configName
              (mkOrigin (endpoints.get ⟨i, hi⟩).host tok) ∧
          ((mutationsOf (reconcile signer env endpoints (.ok cfgs)).1).filter
            (isCreateNamed (endpoints.get ⟨i, hi⟩).configName)).length = 1)) := by
  have hmuts := @mutationsOf_reconcile_ok signer env endpoints cfgs htok
  have epInj : ∀ {a b : EndpointConfig}, a ∈ endpoints → b ∈ endpoints →
      a.configName = b.configName → a = b :=
    fun ha hb h => List.inj_on_of_nodup_map hnd ha hb h
  have hend : endpoints.Nodup := hnd.of_map
  have hlen : (mutationsOf (reconcile signer env endpoints (.ok cfgs)).1).length =
      endpoints.length := by rw [hmuts, List.length_map]
  refine ⟨hlen, fun hm => ?_⟩
  set epi := endpoints.get ⟨i, hi⟩ with hepi
  have hepimem : epi ∈ endpoints := List.get_mem endpoints i hi
  obtain ⟨toki, htoki⟩ := htok epi hepimem
  have hgetok : getOk (tokenFor signer env epi) = toki := by rw [htoki]; rfl
  have hgeti : (mutationsOf (reconcile signer env endpoints (.ok cfgs)).1).get ⟨i, hm⟩ =
      upsertConfig epi (buildIndex cfgs epi.configName) (getOk (tokenFor signer env epi)) := by
    obtain ⟨x, hx⟩ : ∃ x, (mutationsOf (reconcile signer env endpoints
        (.ok cfgs)).1).get ⟨i, hm⟩ = x := ⟨_, rfl⟩
    have h1 : (mutationsOf (reconcile signer env endpoints (.ok cfgs)).1)[i]? =
        some x := by
      rw [← hx, List.get_eq_getElem, List.getElem?_eq_getElem]
    rw [hmuts, List.getElem?_map, List.getElem?_eq_getElem hi, Option.map_some'] at h1
    rw [hx]
    exact (Option.some.inj h1).symm
  constructor
  · intro c hc hcname
    have hbi : buildIndex cfgs epi.configName = some c :=
      buildIndex_nodup_some hcfg hc hcname
    refine ⟨toki, htoki, ?_, ?_, ?_, ?_⟩
    · rw [hgeti, hbi, hgetok]
      rfl
    · rw [hmuts, ← List.countP_eq_length_filter, List.countP_map]
      refine countP_eq_one_of hend hepimem ?_ ?_
      · show isEditOf c.id (upsertConfig epi (buildIndex cfgs epi.configName)
          (getOk (tokenFor signer env epi))) = true
        rw [hbi]
        simp [upsertConfig, isEditOf]
      · intro ep' hep' hp
        have hp' : isEditOf c.id (upsertConfig ep' (buildIndex cfgs ep'.configName)
            (getOk (tokenFor signer env ep'))) = true := hp
        cases hb : buildIndex cfgs ep'.configName with
        | none => rw [hb] at hp'; simp [upsertConfig, isEditOf] at hp'
        | some d =>
          rw [hb] at hp'
          have hdc : d.id = c.id := by
            simpa [upsertConfig, isEditOf] using hp'
          obtain ⟨hdmem, hdname⟩ := buildIndex_some hb
          have : d = c := List.inj_on_of_nodup_map hid hdmem hc hdc
          exact epInj hep' hepimem (by rw [← hdname, this, hcname])
    · rw [hmuts, ← List.countP_eq_length_filter, List.countP_map, List.countP_eq_zero]
      intro ep' hep'
      show ¬ isCreateNamed epi.configName (upsertConfig ep' (buildIndex cfgs ep'.configName)
        (getOk (tokenFor signer env ep'))) = true
      cases hb : buildIndex cfgs ep'.configName with
      | some d => simp [upsertConfig, isCreateNamed]
      | none =>
        intro hp
        have hname' : ep'.configName = epi.configName := by
          simpa [upsertConfig, isCreateNamed] using hp
        have : ep' = epi := epInj hep' hepimem hname'
        rw [this, hbi] at hb
        cases hb
    · rw [hgeti, hbi, hgetok]
      show (cfgs.map (fun d => if d.id = c.id then RemoteConfig.mk d.id d.name
        (mkOrigin epi.host toki) else d)).map (fun d => d.name) = _
      rw [List.map_map]
      refine List.map_congr_left ?_
      intro d hd
      by_cases h : d.id = c.id <;> simp [h]
  · intro hnone
    have hbi : buildIndex cfgs epi.configName = none := by
      cases hb : buildIndex cfgs epi.configName with
      | none => rfl
      | some d =>
        obtain ⟨hdmem, hdname⟩ := buildIndex_some hb
        exact absurd hdname (hnone d hdmem)
    refine ⟨toki, htoki, ?_, ?_⟩
    · rw [hgeti, hbi, hgetok]
      rfl
    · rw [hmuts, ← List.countP_eq_length_filter, List.countP_map]
      refine countP_eq_one_of hend hepimem ?_ ?_
      · show isCreateNamed epi.configName (upsertConfig epi (buildIndex cfgs epi.configName)
          (getOk (tokenFor signer env epi))) = true
        rw [hbi]
        simp [upsertConfig, isCreateNamed]
      · intro ep' hep' hp
        have hp' : isCreateNamed epi.configName (upsertConfig ep'
            (buildIndex cfgs ep'.configName) (getOk (tokenFor signer env ep'))) = true := hp
        cases hb : buildIndex cfgs ep'.configName with
        | some d => rw [hb] at hp'; simp [upsertConfig, isCreateNamed] at hp'
        | none =>
          rw [hb] at hp'
          have hname' : ep'.configName = epi.configName := by
            simpa [upsertConfig, isCreateNamed] using hp'
          exact epInj hep' hepimem hname'

/-- Witness for C1: at concrete inputs, the primary endpoint's config is
listed, so the run edits it (with the fresh token) and creates nothing
under its name. -/
theorem upsert_edit_or_create_witness :
    (mutationsOf (reconcile plainSigner sampleEnv (demoEndpoints sampleEnv)
        (.ok sampleCfgs)).1).length = (demoEndpoints sampleEnv).length ∧
    ∃ tok, tokenFor plainSigner sampleEnv
        ((demoEndpoints sampleEnv).get ⟨0, by decide⟩) = .ok tok ∧
      (mutationsOf (reconcile plainSigner sampleEnv (demoEndpoints sampleEnv)
        (.ok sampleCfgs)).1).get ⟨0, by decide⟩ =
        RemoteOp.edit sampleId1
          (mkOrigin ((demoEndpoints sampleEnv).get ⟨0, by decide⟩).host tok) ∧
      ((mutationsOf (reconcile plainSigner sampleEnv (demoEndpoints sampleEnv)
        (.ok sampleCfgs)).1).filter (isEditOf sampleId1)).length = 1 ∧
      ((mutationsOf (reconcile plainSigner sampleEnv (demoEndpoints sampleEnv)
        (.ok sampleCfgs)).1).filter
          (isCreateNamed ((demoEndpoints sampleEnv).get ⟨0, by decide⟩).configName)).length
        = 0 ∧
      (applyOp sampleCfgs ((mutationsOf (reconcile plainSigner sampleEnv
        (demoEndpoints sampleEnv) (.ok sampleCfgs)).1).get ⟨0, by decide⟩)).map
          (fun d => d.name) = sampleCfgs.map (fun d => d.name) := by
  have h := upsert_edit_or_create plainSigner sampleEnv (demoEndpoints sampleEnv)
    sampleCfgs 0 (by decide) (by decide) (by decide) (by decide)
    (by intro ep hep; fin_cases hep <;> exact ⟨_, rfl⟩)
  exact ⟨h.1, (h.2 (by decide)).1 ⟨sampleId1, primaryName, mkOrigin sampleHost oldToken⟩
    (by decide) (by decide)⟩

theorem reconcile_mut_get {signer : SignerInput → Except SignErr Str} {env : EnvR}
    {endpoints : List EndpointConfig} {cfgs : List RemoteConfig}
    (htok : ∀ ep ∈ endpoints, ∃ t, tokenFor signer env ep = .ok t)
    {i : Nat} (hi : i < endpoints.length)
    (hm : i < (mutationsOf (reconcile signer env endpoints (.ok cfgs)).1).length) :
    (mutationsOf (reconcile signer env endpoints (.ok cfgs)).1).get ⟨i, hm⟩ =
      upsertConfig (endpoints.get ⟨i, hi⟩)
        (buildIndex cfgs (endpoints.get ⟨i, hi⟩).configName)
        (getOk (tokenFor signer env (endpoints.get ⟨i, hi⟩))) := by
  have hmuts := @mutationsOf_reconcile_ok signer env endpoints cfgs htok
  obtain ⟨x, hx⟩ : ∃ x, (mutationsOf (reconcile signer env endpoints
      (.ok cfgs)).1).get ⟨i, hm⟩ = x := ⟨_, rfl⟩
  have h1 : (mutationsOf (reconcile signer env endpoints (.ok cfgs)).1)[i]? =
      some x := by
    rw [← hx, List.get_eq_getElem, List.getElem?_eq_getElem]
  rw [hmuts, List.getElem?_map, List.getElem?_eq_getElem hi, Option.map_some'] at h1
  rw [hx]
  exact (Option.some.inj h1).symm

/-- C3: running reconcile twice in succession, where the second run lists
exactly the state produced by applying the first run's trace, makes the
second run issue only edit calls — no creates. -/
theorem reconcile_idempotent (signer : SignerInput → Except SignErr Str) (env : EnvR)
    (endpoints : List EndpointConfig) (s : List RemoteConfig)
    (htok : ∀ ep ∈ endpoints, ∃ t, tokenFor signer env ep = .ok t) :
    ∀ op ∈ mutationsOf (reconcile signer env endpoints
      (.ok (applyOps (reconcile signer env endpoints (.ok s)).1 s))).1,
      ∃ cid origin, op = RemoteOp.edit cid origin := by
  set s' := applyOps (reconcile signer env endpoints (.ok s)).1 s with hs'
  have hdel : ∀ cid, RemoteOp.delete cid ∉ (reconcile signer env endpoints (.ok s)).1 := by
    intro cid hmem
    rcases reconcile_ops_shape _ hmem with ⟨h, r, he⟩ | he | ⟨ep, _, cfg, tok, he⟩
    · cases he
    · cases he
    · cases cfg <;> simp [upsertConfig] at he
  have hpresent : ∀ ep ∈ endpoints, ∃ c ∈ s', c.name = ep.configName := by
    intro ep hep
    cases hb : buildIndex s ep.configName with
    | some c =>
      obtain ⟨hcm, hcn⟩ := buildIndex_some hb
      exact applyOps_name_present hdel ⟨c, hcm, hcn⟩
    | none =>
      have hcr : RemoteOp.create ep.configName (mkOrigin ep.host
          (getOk (tokenFor signer env ep))) ∈ (reconcile signer env endpoints (.ok s)).1 := by
        rw [reconcile_ok_eq htok]
        refine List.mem_append.mpr (Or.inr (List.mem_cons_of_mem _ ?_))
        refine List.mem_map.mpr ⟨ep, hep, ?_⟩
        rw [hb]
        rfl
      exact applyOps_create_mem hdel hcr s
  intro op hop
  rw [mutationsOf_reconcile_ok htok] at hop
  obtain ⟨ep, hep, hx⟩ := List.mem_map.mp hop
  obtain ⟨c, hcm, hcn⟩ := hpresent ep hep
  obtain ⟨d, hd⟩ := buildIndex_isSome hcm hcn
  refine ⟨d.id, mkOrigin ep.host (getOk (tokenFor signer env ep)), ?_⟩
  rw [← hx, hd]
  rfl

/-- Witness for C3 at concrete inputs: the first mutation of the second run
is an edit. -/
theorem reconcile_idempotent_witness :
    ∃ cid origin,
      (mutationsOf (reconcile plainSigner sampleEnv (demoEndpoints sampleEnv)
        (.ok (applyOps (reconcile plainSigner sampleEnv (demoEndpoints sampleEnv)
          (.ok sampleCfgs)).1 sampleCfgs))).1).get ⟨0, by decide⟩ =
        RemoteOp.edit cid origin :=
  reconcile_idempotent plainSigner sampleEnv (demoEndpoints sampleEnv) sampleCfgs
    (by intro ep hep; fin_cases hep <;> exact ⟨_, rfl⟩) _ (by decide)

/-- Counterexample to C6: with two listed configs of the same name, the
first-seen match is the one with id `sampleId1`, yet the run's edit targets
`sampleId2` (the last-seen one) and never touches `sampleId1`. -/
theorem firstSeen_counterexample :
    dupCfgs.find? (fun c => c.name = primaryName) =
      some ⟨sampleId1, primaryName, mkOrigin sampleHost oldToken⟩ ∧
    ((mutationsOf (reconcile plainSigner sampleEnv (demoEndpoints sampleEnv)
      (.ok dupCfgs)).1).filter (isEditOf sampleId2)).length = 1 ∧
    ((mutationsOf (reconcile plainSigner sampleEnv (demoEndpoints sampleEnv)
      (.ok dupCfgs)).1).filter (isEditOf sampleId1)).length = 0 := by
  refine ⟨by decide, by decide, by decide⟩

/-- C6 amended: when a configName appears more than once in the listing, the
upsert for an endpoint with that name targets the LAST-seen matching
config's id (the index is built by overwrite-by-key, so the last entry
wins). -/
theorem lastSeen_match (signer : SignerInput → Except SignErr Str) (env : EnvR)
    (endpoints : List EndpointConfig) (cfgs : List RemoteConfig)
    (i : Nat) (hi : i < endpoints.length) (c : RemoteConfig)
    (htok : ∀ ep ∈ endpoints, ∃ t, tokenFor signer env ep = .ok t)
    (hlast : cfgs.reverse.find? (fun d => d.name = (endpoints.get ⟨i, hi⟩).configName)
      = some c) :
    ∀ hm : i < (mutationsOf (reconcile signer env endpoints (.ok cfgs)).1).length,
      ∃ tok, tokenFor signer env (endpoints.get ⟨i, hi⟩) = .ok tok ∧
        (mutationsOf (reconcile signer env endpoints (.ok cfgs)).1).get ⟨i, hm⟩ =
          RemoteOp.edit c.id (mkOrigin (endpoints.get ⟨i, hi⟩).host tok) := by
  intro hm
  have hbi : buildIndex cfgs (endpoints.get ⟨i, hi⟩).configName = some c := by
    rw [buildIndex_eq]
    exact hlast
  obtain ⟨tok, htk⟩ := htok (endpoints.get ⟨i, hi⟩) (List.get_mem endpoints i hi)
  refine ⟨tok, htk, ?_⟩
  rw [reconcile_mut_get htok hi hm, hbi, htk]
  rfl

/-- Witness for the amended C6 at the duplicate-name listing. -/
theorem lastSeen_match_witness :
    ∃ tok, tokenFor plainSigner sampleEnv
        ((demoEndpoints sampleEnv).get ⟨0, by decide⟩) = .ok tok ∧
      (mutationsOf (reconcile plainSigner sampleEnv (demoEndpoints sampleEnv)
        (.ok dupCfgs)).1).get ⟨0, by decide⟩ =
        RemoteOp.edit sampleId2
          (mkOrigin ((demoEndpoints sampleEnv).get ⟨0, by decide⟩).host tok) :=
  lastSeen_match plainSigner sampleEnv (demoEndpoints sampleEnv) dupCfgs 0 (by decide)
    ⟨sampleId2, primaryName, mkOrigin sampleHost oldToken⟩
    (by intro ep hep; fin_cases hep <;> exact ⟨_, rfl⟩) (by decide) (by decide)

theorem applyOps_keeps_exact {tr : List RemoteOp}
    (hdel : ∀ cid, RemoteOp.delete cid ∉ tr)
    (hedit : ∀ cid o, RemoteOp.edit cid o ∉ tr) :
    ∀ {s : List RemoteConfig} {c : RemoteConfig}, c ∈ s → c ∈ applyOps tr s := by
  induction tr with
  | nil => intro s c hc; exact hc
  | cons op ops ih =>
    intro s c hc
    have hdel' : ∀ cid, RemoteOp.delete cid ∉ ops :=
      fun cid h => hdel cid (List.mem_cons_of_mem _ h)
    have hedit' : ∀ cid o, RemoteOp.edit cid o ∉ ops :=
      fun cid o h => hedit cid o (List.mem_cons_of_mem _ h)
    show c ∈ applyOps ops (applyOp s op)
    cases op with
    | sign h r => exact ih hdel' hedit' hc
    | list => exact ih hdel' hedit' hc
    | create n o => exact ih hdel' hedit' (List.mem_append.mpr (Or.inl hc))
    | edit cid o => exact absurd (List.mem_cons_self _ _) (hedit cid o)
    | delete cid => exact absurd (List.mem_cons_self _ _) (hdel cid)

/-- C8: in the `src/src/index.ts` variant, when the listing already contains
a config with one of the two fixed names, the run performs no write at all
for that endpoint — no create under that name, no edit at all, no token
generation for that endpoint's host — and every listed config with that
name survives the run entirely unchanged. -/
theorem scheduledV1_skips_existing (signer : SignerInput → Except SignErr Str)
    (env : EnvR) (cfgs : List RemoteConfig) (nm hostn : Str)
    (hsel : (nm = primaryName ∧ hostn = env.AWS_DSQL_ENDPOINT_PRIMARY) ∨
            (nm = secondaryName ∧ hostn = env.AWS_DSQL_ENDPOINT_SECONDARY))
    (hfound : ∃ c ∈ cfgs, c.name = nm)
    (hdist : ¬ env.AWS_DSQL_ENDPOINT_PRIMARY = env.AWS_DSQL_ENDPOINT_SECONDARY) :
    (∀ o, RemoteOp.create nm o ∉ (scheduledV1 signer env (.ok cfgs)).1) ∧
    (∀ cid o, RemoteOp.edit cid o ∉ (scheduledV1 signer env (.ok cfgs)).1) ∧
    (∀ r, RemoteOp.sign hostn r ∉ (scheduledV1 signer env (.ok cfgs)).1) ∧
    (∀ c ∈ cfgs, c.name = nm → c ∈ applyOps (scheduledV1 signer env (.ok cfgs)).1 cfgs) := by
  have hedit : ∀ cid o, RemoteOp.edit cid o ∉ (scheduledV1 signer env (.ok cfgs)).1 := by
    intro cid o hmem
    rcases scheduledV1_ops _ hmem with he | ⟨h, r, he⟩ | ⟨pw, he⟩ | ⟨pw, he⟩ <;> cases he
  have hdel : ∀ cid, RemoteOp.delete cid ∉ (scheduledV1 signer env (.ok cfgs)).1 := by
    intro cid hmem
    rcases scheduledV1_ops _ hmem with he | ⟨h, r, he⟩ | ⟨pw, he⟩ | ⟨pw, he⟩ <;> cases he
  have hkeep : ∀ c ∈ cfgs, c.name = nm →
      c ∈ applyOps (scheduledV1 signer env (.ok cfgs)).1 cfgs :=
    fun c hc _ => applyOps_keeps_exact hdel hedit hc
  obtain ⟨cf, hcf, hcfn⟩ := hfound
  rcases hsel with ⟨rfl, rfl⟩ | ⟨rfl, rfl⟩
  · have hfp : cfgs.any (fun config => config.name = primaryName) = true :=
      List.any_eq_true.mpr ⟨cf, hcf, decide_eq_true hcfn⟩
    have htr : (scheduledV1 signer env (.ok cfgs)).1 = RemoteOp.list ::
        (createBranch signer env (cfgs.any (fun config => config.name = secondaryName))
          secondaryName env.AWS_DSQL_ENDPOINT_SECONDARY env.AWS_DSQL_REGION_SECONDARY).1 := by
      unfold scheduledV1
      dsimp only
      rw [hfp]
      show (RemoteOp.list :: (createBranch signer env true primaryName
        env.AWS_DSQL_ENDPOINT_PRIMARY env.AWS_DSQL_REGION_PRIMARY).1 ++ _, _).1 = _
      rfl
    refine ⟨?_, hedit, ?_, hkeep⟩
    · intro o hmem
      rw [htr] at hmem
      rcases List.mem_cons.mp hmem with he | hmem2
      · cases he
      · rcases createBranch_ops _ hmem2 with he | ⟨pw, he⟩
        · cases he
        · exact absurd (RemoteOp.create.inj he).1 (by decide)
    · intro r hmem
      rw [htr] at hmem
      rcases List.mem_cons.mp hmem with he | hmem2
      · cases he
      · rcases createBranch_ops _ hmem2 with he | ⟨pw, he⟩
        · exact hdist (RemoteOp.sign.inj he).1
        · cases he
  · have hfs : cfgs.any (fun config => config.name = secondaryName) = true :=
      List.any_eq_true.mpr ⟨cf, hcf, decide_eq_true hcfn⟩
    have htr : (scheduledV1 signer env (.ok cfgs)).1 = RemoteOp.list ::
        (createBranch signer env (cfgs.any (fun config => config.name = primaryName))
          primaryName env.AWS_DSQL_ENDPOINT_PRIMARY env.AWS_DSQL_REGION_PRIMARY).1 := by
      unfold scheduledV1
      dsimp only
      rw [hfs]
      by_cases hp2 : (createBranch signer env
          (cfgs.any (fun config => config.name = primaryName)) primaryName
          env.AWS_DSQL_ENDPOINT_PRIMARY env.AWS_DSQL_REGION_PRIMARY).2
      · rw [if_pos hp2]
        show RemoteOp.list :: _ ++ (createBranch signer env true secondaryName
          env.AWS_DSQL_ENDPOINT_SECONDARY env.AWS_DSQL_REGION_SECONDARY).1 = _
        show RemoteOp.list :: _ ++ ([] : List RemoteOp) = _
        rw [List.append_nil]
      · rw [if_neg hp2]
    refine ⟨?_, hedit, ?_, hkeep⟩
    · intro o hmem
      rw [htr] at hmem
      rcases List.mem_cons.mp hmem with he | hmem2
      · cases he
      · rcases createBranch_ops _ hmem2 with he | ⟨pw, he⟩
        · cases he
        · exact absurd (RemoteOp.create.inj he).1 (by decide)
    · intro r hmem
      rw [htr] at hmem
      rcases List.mem_cons.mp hmem with he | hmem2
      · cases he
      · rcases createBranch_ops _ hmem2 with he | ⟨pw, he⟩
        · exact hdist (RemoteOp.sign.inj he).1.symm
        · cases he

/-- Witness for C8 at concrete inputs. -/
theorem scheduledV1_skips_existing_witness :
    (∀ o, RemoteOp.create primaryName o ∉
      (scheduledV1 plainSigner sampleEnv (.ok sampleCfgs)).1) ∧
    (∀ cid o, RemoteOp.edit cid o ∉
      (scheduledV1 plainSigner sampleEnv (.ok sampleCfgs)).1) ∧
    (∀ r, RemoteOp.sign sampleEnv.AWS_DSQL_ENDPOINT_PRIMARY r ∉
      (scheduledV1 plainSigner sampleEnv (.ok sampleCfgs)).1) ∧
    (∀ c ∈ sampleCfgs, c.name = primaryName →
      c ∈ applyOps (scheduledV1 plainSigner sampleEnv (.ok sampleCfgs)).1 sampleCfgs) :=
  scheduledV1_skips_existing plainSigner sampleEnv sampleCfgs primaryName
    sampleEnv.AWS_DSQL_ENDPOINT_PRIMARY (Or.inl ⟨rfl, rfl⟩) (by decide) (by decide)

/-- C9: every origin written by a create or edit call, in any variant, has
scheme `postgres`, database `postgres`, user `admin` and port 5432. -/
theorem origins_constant (signer : SignerInput → Except SignErr Str) (env : EnvR) :
    (∀ endpoints listing, ∀ op ∈ (reconcile signer env endpoints listing).1,
      ∀ o, originOfOp op = some o →
        o.scheme = pgScheme ∧ o.database = pgDatabase ∧ o.user = adminUser ∧ o.port = 5432) ∧
    (∀ listing, ∀ op ∈ (scheduledV1 signer env listing).1,
      ∀ o, originOfOp op = some o →
        o.scheme = pgScheme ∧ o.database = pgDatabase ∧ o.user = adminUser ∧ o.port = 5432) := by
  constructor
  · intro endpoints listing op hop o ho
    rcases reconcile_ops_shape _ hop with ⟨h, r, rfl⟩ | rfl | ⟨ep, _, cfg, tok, rfl⟩
    · cases ho
    · cases ho
    · cases cfg with
      | none =>
        have ho' : mkOrigin ep.host tok = o := by
          simpa [upsertConfig, originOfOp] using ho
        rw [← ho']
        exact ⟨rfl, rfl, rfl, rfl⟩
      | some d =>
        have ho' : mkOrigin ep.host tok = o := by
          simpa [upsertConfig, originOfOp] using ho
        rw [← ho']
        exact ⟨rfl, rfl, rfl, rfl⟩
  · intro listing op hop o ho
    rcases scheduledV1_ops _ hop with rfl | ⟨h, r, rfl⟩ | ⟨pw, rfl⟩ | ⟨pw, rfl⟩
    · cases ho
    · cases ho
    · have ho' : mkOrigin env.AWS_DSQL_ENDPOINT_PRIMARY pw = o := by
        simpa [originOfOp] using ho
      rw [← ho']
      exact ⟨rfl, rfl, rfl, rfl⟩
    · have ho' : mkOrigin env.AWS_DSQL_ENDPOINT_SECONDARY pw = o := by
        simpa [originOfOp] using ho
      rw [← ho']
      exact ⟨rfl, rfl, rfl, rfl⟩

/-- Witness for C9 at a concrete written origin. -/
theorem origins_constant_witness :
    (mkOrigin sampleEnv.AWS_DSQL_ENDPOINT_SECONDARY
      (getOk (tokenFor plainSigner sampleEnv ⟨secondaryName,
        sampleEnv.AWS_DSQL_ENDPOINT_SECONDARY,
        sampleEnv.AWS_DSQL_REGION_SECONDARY⟩))).scheme = pgScheme ∧
    (mkOrigin sampleEnv.AWS_DSQL_ENDPOINT_SECONDARY
      (getOk (tokenFor plainSigner sampleEnv ⟨secondaryName,
        sampleEnv.AWS_DSQL_ENDPOINT_SECONDARY,
        sampleEnv.AWS_DSQL_REGION_SECONDARY⟩))).database = pgDatabase ∧
    (mkOrigin sampleEnv.AWS_DSQL_ENDPOINT_SECONDARY
      (getOk (tokenFor plainSigner sampleEnv ⟨secondaryName,
        sampleEnv.AWS_DSQL_ENDPOINT_SECONDARY,
        sampleEnv.AWS_DSQL_REGION_SECONDARY⟩))).user = adminUser ∧
    (mkOrigin sampleEnv.AWS_DSQL_ENDPOINT_SECONDARY
      (getOk (tokenFor plainSigner sampleEnv ⟨secondaryName,
        sampleEnv.AWS_DSQL_ENDPOINT_SECONDARY,
        sampleEnv.AWS_DSQL_REGION_SECONDARY⟩))).port = 5432 :=
  (origins_constant plainSigner sampleEnv).1 (demoEndpoints sampleEnv) (.ok sampleCfgs)
    (RemoteOp.create secondaryName (mkOrigin sampleEnv.AWS_DSQL_ENDPOINT_SECONDARY
      (getOk (tokenFor plainSigner sampleEnv ⟨secondaryName,
        sampleEnv.AWS_DSQL_ENDPOINT_SECONDARY, sampleEnv.AWS_DSQL_REGION_SECONDARY⟩))))
    (by decide) _ rfl

/-- C10: the password of the i-th upsert is exactly the token produced by
signing with the i-th endpoint's host and region (and the fixed action
`DbConnectAdmin`): tokens and endpoints are paired positionally. -/
theorem tokens_positional (signer : SignerInput → Except SignErr Str) (env : EnvR)
    (endpoints : List EndpointConfig) (cfgs : List RemoteConfig)
    (i : Nat) (hi : i < endpoints.length)
    (htok : ∀ ep ∈ endpoints, ∃ t, tokenFor signer env ep = .ok t) :
    (mutationsOf (reconcile signer env endpoints (.ok cfgs)).1).length = endpoints.length ∧
    ∀ hm : i < (mutationsOf (reconcile signer env endpoints (.ok cfgs)).1).length,
      ∃ tok, generateDbConnectAdminAuthToken signer (endpoints.get ⟨i, hi⟩).host
          (endpoints.get ⟨i, hi⟩).region dbConnectAdminAction
          env.AWS_DSQL_ACCESS_KEY_ID env.AWS_DSQL_SECRET_ACCESS_KEY none = .ok tok ∧
        originOfOp ((mutationsOf (reconcile signer env endpoints (.ok cfgs)).1).get ⟨i, hm⟩)
          = some (mkOrigin (endpoints.get ⟨i, hi⟩).host tok) := by
  constructor
  · rw [mutationsOf_reconcile_ok htok, List.length_map]
  · intro hm
    obtain ⟨tok, htk⟩ := htok (endpoints.get ⟨i, hi⟩) (List.get_mem endpoints i hi)
    refine ⟨tok, htk, ?_⟩
    rw [reconcile_mut_get htok hi hm]
    have hg : getOk (tokenFor signer env (endpoints.get ⟨i, hi⟩)) = tok := by
      rw [htk]
      rfl
    rw [hg]
    cases buildIndex cfgs (endpoints.get ⟨i, hi⟩).configName <;> rfl

/-- Witness for C10 at concrete inputs (the second endpoint, a create). -/
theorem tokens_positional_witness :
    ∃ tok, generateDbConnectAdminAuthToken plainSigner
        ((demoEndpoints sampleEnv).get ⟨1, by decide⟩).host
        ((demoEndpoints sampleEnv).get ⟨1, by decide⟩).region dbConnectAdminAction
        sampleEnv.AWS_DSQL_ACCESS_KEY_ID sampleEnv.AWS_DSQL_SECRET_ACCESS_KEY none
        = .ok tok ∧
      originOfOp ((mutationsOf (reconcile plainSigner sampleEnv (demoEndpoints sampleEnv)
        (.ok sampleCfgs)).1).get ⟨1, by decide⟩)
        = some (mkOrigin ((demoEndpoints sampleEnv).get ⟨1, by decide⟩).host tok) :=
  (tokens_positional plainSigner sampleEnv (demoEndpoints sampleEnv) sampleCfgs 1
    (by decide) (by intro ep hep; fin_cases hep <;> exact ⟨_, rfl⟩)).2 (by decide)
